import Mathlib

/-!
Verification of the astro-optimizer scripts (analyze.py, apply_optimizations.py,
detect_js_patterns.py, generate_preloads.py) against their design specification.

Strings are modelled as `List Char`.  The regex-based rewrite rules of
apply_optimizations.py are embedded by bespoke matchers that reproduce the
leftmost-scan, greedy-backtracking semantics of Python's `re.sub` for the five
concrete patterns used by the scripts (case-insensitivity is modelled by
`Char.toLower`, which agrees with Python for the ASCII text these patterns
inspect).  Each matcher returns the length of the match starting at the head of
the list, or `none`.
-/

namespace AstroOptimizer

/-! ## Basic character and list helpers -/

/-- Lower-case a character (models Python `str.lower` on ASCII). -/
def lowChar (c : Char) : Char := c.toLower

/-- Lower-case a string given as a character list. -/
def lowStr (l : List Char) : List Char := l.map lowChar

/-- Exact list-prefix test. -/
def isPrefOf : List Char → List Char → Bool
  | [], _ => true
  | _ :: _, [] => false
  | a :: as, b :: bs => a == b && isPrefOf as bs

/-- Substring test: does `needle` occur contiguously inside `hay`?
Models Python's `in` on strings. -/
def hasSub (needle : List Char) : List Char → Bool
  | [] => needle.isEmpty
  | c :: cs => isPrefOf needle (c :: cs) || hasSub needle cs

/-- Case-insensitive prefix test against a lower-case literal. -/
def startsCI (lit l : List Char) : Bool := isPrefOf lit (lowStr l)

/-- Case-insensitive substring test against a lower-case literal
(models Python `lit in s.lower()`). -/
def hasSubCI (lit l : List Char) : Bool := hasSub lit (lowStr l)

/-- Exact list-suffix test (models Python `str.endswith`). -/
def endsWithList (suf l : List Char) : Bool := isPrefOf suf.reverse l.reverse

/-- Index of the first occurrence of character `c`. -/
def findCh (c : Char) : List Char → Option Nat
  | [] => none
  | x :: xs => if x == c then some 0 else (findCh c xs).map (· + 1)

/-- The apostrophe character. -/
def apos : Char := Char.ofNat 39

/-- Is this character one of the two quote characters of the patterns? -/
def isQuoteCh (c : Char) : Bool := c == '"' || c == apos

/-- Index of the first quote character (either kind), as Python's regex
class `["\']` sees them. -/
def findQuote : List Char → Option Nat
  | [] => none
  | x :: xs => if isQuoteCh x then some 0 else (findQuote xs).map (· + 1)

/-- The whitespace characters matched by Python's `\s` on ASCII text. -/
def isWsCh (c : Char) : Bool :=
  c == ' ' || c == '\t' || c == '\n' || c == '\x0d' || c == '\x0c' || c == '\x0b'

/-- Length of the maximal whitespace run at the head of the list
(the extent of a greedy `\s*`). -/
def wsRun : List Char → Nat
  | [] => 0
  | c :: cs => if isWsCh c then wsRun cs + 1 else 0

/-! ## The generic substitution scan

`gsub m r l` mirrors `re.sub(pattern, repl, l)`: scan left to right; when the
matcher `m` recognises a match of length `e` at the current position, emit the
replacement of the matched span and continue after it, otherwise emit one
character and move on.  `r` returns the replacement together with the change
message the replacement callback records (`none` when the callback returns the
span unchanged).  -/

/-- Prepend an optional change message to a change list. -/
def consOpt (o : Option String) (t : List String) : List String :=
  match o with
  | some s => s :: t
  | none => t

def gsubF (m : List Char → Option Nat) (r : List Char → List Char × Option String) :
    Nat → List Char → List Char × List String
  | _, [] => ([], [])
  | 0, l => (l, [])
  | fuel + 1, c :: cs =>
    match m (c :: cs) with
    | some e =>
      let p := r (c :: cs.take (e - 1))
      let rest := gsubF m r fuel (cs.drop (e - 1))
      (p.1 ++ rest.1, consOpt p.2 rest.2)
    | none =>
      let rest := gsubF m r fuel cs
      (c :: rest.1, rest.2)

def gsub (m : List Char → Option Nat) (r : List Char → List Char × Option String)
    (l : List Char) : List Char × List String :=
  gsubF m r l.length l

/-! ## The matchers for the five rewrite patterns -/

/-- Matcher for `<img[^>]*/?>` (IGNORECASE): the literal `<img`, then
everything up to and including the first following `>`. -/
def imgMatch (l : List Char) : Option Nat :=
  if startsCI "<img".data l then
    match findCh '>' (l.drop 4) with
    | some k => some (5 + k)
    | none => none
  else none

/-- Matcher for `@font-face\s*\{[^}]*\}` (IGNORECASE|DOTALL): the literal
`@font-face`, a whitespace run, `{`, then everything up to and including the
first `}`. -/
def fontMatch (l : List Char) : Option Nat :=
  if startsCI "@font-face".data l then
    let j := 10 + wsRun (l.drop 10)
    match l.drop j with
    | c :: rest =>
      if c == '{' then
        match findCh '\x7d' rest with
        | some k => some (j + 2 + k)
        | none => none
      else none
    | [] => none
  else none

/-- The hero keywords of the fetchpriority patterns. -/
def heroKeywords : List (List Char) :=
  ["hero".data, "banner".data, "featured".data, "lcp".data, "main-image".data]

/-- Does a hero keyword occur (case-insensitively) in the region? -/
def keywordIn (region : List Char) : Bool :=
  heroKeywords.any (fun k => hasSub k (lowStr region))

/-- The attribute alternation `(?:class|id)=` at absolute index `a` of `l`:
returns the index just after the `=` (the position of the opening quote). -/
def attrAt (l : List Char) (a : Nat) : Option Nat :=
  if startsCI "class=".data (l.drop a) then some (a + 6)
  else if startsCI "id=".data (l.drop a) then some (a + 3)
  else none

/-- Viability of one backtracking candidate of the hero pattern
`(?:class|id)=["\'][^"\']*(?:hero|banner|featured|lcp|main-image)[^"\']*["\'][^>]*(/?>)`
whose attribute starts at `a`: an opening quote, a hero keyword strictly
between the quotes, a closing quote, and a final `>`.  Returns the exclusive
end index of the whole match. -/
def heroViable (l : List Char) (a : Nat) : Option Nat :=
  match attrAt l a with
  | none => none
  | some b =>
    match l.drop b with
    | c :: rest =>
      if isQuoteCh c then
        match findQuote rest with
        | some q =>
          if keywordIn (rest.take q) then
            match findCh '>' (l.drop (b + 2 + q)) with
            | some k => some (b + 2 + q + k + 1)
            | none => none
          else none
        | none => none
      else none
    | [] => none

/-- Try candidates at `hi, hi - 1, …` (`cnt` of them), returning the first
success: the order in which the greedy `[^>]*` hands positions to the rest of
the pattern. -/
def searchDesc (f : Nat → Option Nat) : Nat → Nat → Option Nat
  | _, 0 => none
  | hi, cnt + 1 =>
    match f hi with
    | some r => some r
    | none => searchDesc f (hi - 1) cnt

/-- Matcher for the two hero patterns
`<img[^>]*(?:class|id)=["\'][^"\']*(?:hero|…)[^"\']*["\'][^>]*(/?>)` and its
`<Image` twin (IGNORECASE).  `opener` is the lower-case opening literal.  The
attribute candidate must start before the first `>` after the opener (the
greedy `[^>]*` cannot cross one), larger candidates are tried first. -/
def heroMatch (opener : List Char) (l : List Char) : Option Nat :=
  if startsCI opener l then
    match findCh '>' (l.drop opener.length) with
    | some grel =>
      let g := opener.length + grel
      searchDesc (heroViable l) (g - 1) (g - opener.length)
    | none => none
  else none

/-- Viability of one backtracking candidate of the script pattern whose
`src=` starts at `a`: a quote, `https://` or `http://`, at least one
non-quote character, a closing quote, and a final `>`. -/
def scriptViable (l : List Char) (a : Nat) : Option Nat :=
  if startsCI "src=".data (l.drop a) then
    let b := a + 4
    match l.drop b with
    | c :: rest =>
      if isQuoteCh c then
        let scheme : Option Nat :=
          if startsCI "https://".data rest then some 8
          else if startsCI "http://".data rest then some 7
          else none
        match scheme with
        | some sl =>
          match findQuote (rest.drop sl) with
          | some q =>
            if q == 0 then none
            else
              match findCh '>' (l.drop (b + 2 + sl + q)) with
              | some k => some (b + 2 + sl + q + k + 1)
              | none => none
          | none => none
        | none => none
      else none
    | [] => none
  else none

/-- Matcher for `<script[^>]*src=["\']https?://[^"\']+["\'][^>]*>`
(IGNORECASE). -/
def scriptMatch (l : List Char) : Option Nat :=
  if startsCI "<script".data l then
    match findCh '>' (l.drop 7) with
    | some grel =>
      let g := 7 + grel
      searchDesc (scriptViable l) (g - 1) (g - 7)
    | none => none
  else none

/-! ## The five rewrite rules of apply_optimizations.py -/

/-- The hero indicators that exempt a tag from the lazy-loading rewrite. -/
def heroIndicators : List (List Char) :=
  ["hero".data, "banner".data, "featured".data, "lcp".data,
   "above-fold".data, "fetchpriority".data]

def lazyMsg : String := "Added loading='lazy' to img tag"

/-- The replacement callback of `add_loading_lazy_to_images`. -/
def lazyRepl (tag : List Char) : List Char × Option String :=
  if hasSub "loading=".data (lowStr tag) then (tag, none)
  else if heroIndicators.any (fun k => hasSub k (lowStr tag)) then (tag, none)
  else if endsWithList "/>".data tag then
    (tag.take (tag.length - 2) ++ " loading=\"lazy\" />".data, some lazyMsg)
  else if endsWithList ">".data tag then
    (tag.take (tag.length - 1) ++ " loading=\"lazy\">".data, some lazyMsg)
  else (tag, none)

/-- `add_loading_lazy_to_images` from apply_optimizations.py. -/
def add_loading_lazy_to_images (content : List Char) : List Char × List String :=
  gsub imgMatch lazyRepl content

def decodingMsg : String := "Added decoding='async' to img tag"

/-- The replacement callback of `add_decoding_async_to_images`. -/
def decodingRepl (tag : List Char) : List Char × Option String :=
  if hasSub "decoding=".data (lowStr tag) then (tag, none)
  else if endsWithList "/>".data tag then
    (tag.take (tag.length - 2) ++ " decoding=\"async\" />".data, some decodingMsg)
  else if endsWithList ">".data tag then
    (tag.take (tag.length - 1) ++ " decoding=\"async\">".data, some decodingMsg)
  else (tag, none)

/-- `add_decoding_async_to_images` from apply_optimizations.py. -/
def add_decoding_async_to_images (content : List Char) : List Char × List String :=
  gsub imgMatch decodingRepl content

def fontMsg : String := "Added font-display: swap to @font-face"

/-- The replacement callback of `add_font_display_swap`. -/
def fontRepl (rule : List Char) : List Char × Option String :=
  if hasSub "font-display".data (lowStr rule) then (rule, none)
  else (rule.take (rule.length - 1) ++ "\n  font-display: swap;\n\x7d".data, some fontMsg)

/-- `add_font_display_swap` from apply_optimizations.py. -/
def add_font_display_swap (content : List Char) : List Char × List String :=
  gsub fontMatch fontRepl content

def deferMsg : String := "Added defer to external script tag"

/-- The replacement callback of `add_defer_to_external_scripts`. -/
def deferRepl (tag : List Char) : List Char × Option String :=
  if hasSub "defer".data (lowStr tag) || hasSub "async".data (lowStr tag) then (tag, none)
  else (tag.take (tag.length - 1) ++ " defer>".data, some deferMsg)

/-- `add_defer_to_external_scripts` from apply_optimizations.py. -/
def add_defer_to_external_scripts (content : List Char) : List Char × List String :=
  gsub scriptMatch deferRepl content

/-- The replacement callback of `add_fetchpriority_to_hero_images`: group 1 is
the match without its final `>`, the closing group is always `>`. -/
def heroRepl (desc : String) (tag0 : List Char) : List Char × Option String :=
  let tag := tag0.take (tag0.length - 1)
  if hasSub "fetchpriority".data (lowStr tag) then (tag0, none)
  else (tag ++ " fetchpriority=\"high\">".data,
        some ("Added fetchpriority='high' to " ++ desc))

/-- `add_fetchpriority_to_hero_images` from apply_optimizations.py: the
`<img` pattern pass followed by the `<Image` pattern pass. -/
def add_fetchpriority_to_hero_images (content : List Char) : List Char × List String :=
  let r1 := gsub (heroMatch "<img".data) (heroRepl "hero/banner class") content
  let r2 := gsub (heroMatch "<image".data) (heroRepl "Astro Image component") r1.1
  (r2.1, r1.2 ++ r2.2)

/-! ## Unfolding lemmas for the substitution scan -/

theorem gsubF_fuel (m : List Char → Option Nat) (r : List Char → List Char × Option String) :
    ∀ (f₁ : Nat) (l : List Char) (f₂ : Nat), l.length ≤ f₁ → l.length ≤ f₂ →
      gsubF m r f₁ l = gsubF m r f₂ l := by
  intro f₁
  induction f₁ with
  | zero =>
    intro l f₂ h1 _
    have : l = [] := List.length_eq_zero.mp (Nat.le_zero.mp h1)
    subst this
    cases f₂ <;> rfl
  | succ f ih =>
    intro l f₂ h1 h2
    cases l with
    | nil => cases f₂ <;> rfl
    | cons c cs =>
      cases f₂ with
      | zero => exact absurd h2 (by simp)
      | succ f₂' =>
        simp only [List.length_cons] at h1 h2
        cases hm : m (c :: cs) with
        | some e =>
          have hd : (cs.drop (e - 1)).length ≤ f := by
            simp only [List.length_drop]
            omega
          have hd2 : (cs.drop (e - 1)).length ≤ f₂' := by
            simp only [List.length_drop]
            omega
          simp only [gsubF, hm]
          rw [ih (cs.drop (e - 1)) f₂' hd hd2]
        | none =>
          simp only [gsubF, hm]
          rw [ih cs f₂' (by omega) (by omega)]

theorem gsub_nil (m : List Char → Option Nat) (r : List Char → List Char × Option String) :
    gsub m r [] = ([], []) := rfl

theorem gsub_cons_some {m : List Char → Option Nat} {r : List Char → List Char × Option String}
    {c : Char} {cs : List Char} {e : Nat} (hm : m (c :: cs) = some e) :
    gsub m r (c :: cs) =
      ((r (c :: cs.take (e - 1))).1 ++ (gsub m r (cs.drop (e - 1))).1,
       consOpt (r (c :: cs.take (e - 1))).2 (gsub m r (cs.drop (e - 1))).2) := by
  show gsubF m r (c :: cs).length (c :: cs) = _
  simp only [List.length_cons, gsubF, hm]
  rw [gsubF_fuel m r cs.length (cs.drop (e - 1)) (cs.drop (e - 1)).length
    (by simp only [List.length_drop]; omega) le_rfl]
  rfl

theorem gsub_cons_none {m : List Char → Option Nat} {r : List Char → List Char × Option String}
    {c : Char} {cs : List Char} (hm : m (c :: cs) = none) :
    gsub m r (c :: cs) = (c :: (gsub m r cs).1, (gsub m r cs).2) := by
  show gsubF m r (c :: cs).length (c :: cs) = _
  simp only [List.length_cons, gsubF, hm]
  rw [gsubF_fuel m r cs.length cs cs.length le_rfl le_rfl]
  rfl

/-! ## Changes are recorded exactly when the text changes

A replacement callback is *honest* when it returns the span unchanged exactly
when it records no change, and strictly lengthens the span when it records
one.  All five callbacks of apply_optimizations.py are honest, and for an
honest callback a `gsub` pass changes the text if and only if it records at
least one change. -/

def HonestRepl (r : List Char → List Char × Option String) : Prop :=
  (∀ s, (r s).2 = none → (r s).1 = s) ∧ (∀ s, (r s).2 ≠ none → s.length < (r s).1.length)

theorem gsub_honest {m : List Char → Option Nat} {r : List Char → List Char × Option String}
    (hr : HonestRepl r) :
    ∀ l, ((gsub m r l).2 = [] → (gsub m r l).1 = l) ∧
         ((gsub m r l).2 ≠ [] → l.length < (gsub m r l).1.length) := by
  have main : ∀ (n : Nat) (l : List Char), l.length ≤ n →
      ((gsub m r l).2 = [] → (gsub m r l).1 = l) ∧
      ((gsub m r l).2 ≠ [] → l.length < (gsub m r l).1.length) := by
    intro n
    induction n with
    | zero =>
      intro l h
      have : l = [] := List.length_eq_zero.mp (Nat.le_zero.mp h)
      subst this
      simp [gsub_nil]
    | succ n ih =>
      intro l hlen
      cases l with
      | nil => simp [gsub_nil]
      | cons c cs =>
        cases hm : m (c :: cs) with
        | some e =>
          rw [gsub_cons_some hm]
          have hdrop : (cs.drop (e - 1)).length ≤ n := by
            simp only [List.length_drop]
            simp only [List.length_cons] at hlen
            omega
          have ihd := ih (cs.drop (e - 1)) hdrop
          have hsplit : (c :: cs.take (e - 1)).length + (cs.drop (e - 1)).length
              = (c :: cs).length := by
            simp only [List.length_cons, List.length_take, List.length_drop]
            omega
          constructor
          · intro hch
            have h2 : consOpt (r (c :: cs.take (e - 1))).2 (gsub m r (cs.drop (e - 1))).2 = [] := hch
            cases hrs : (r (c :: cs.take (e - 1))).2 with
            | some s => simp [consOpt, hrs] at h2
            | none =>
              simp only [consOpt, hrs] at h2
              have hid := hr.1 _ hrs
              have hrest := ihd.1 h2
              simp only [hid, hrest]
              exact (List.cons_append _ _ _ ▸ congrArg (c :: ·) (List.take_append_drop _ cs))
          · intro hch
            simp only [List.length_append]
            have hge : (cs.drop (e - 1)).length ≤ (gsub m r (cs.drop (e - 1))).1.length := by
              by_cases hrest : (gsub m r (cs.drop (e - 1))).2 = []
              · rw [ihd.1 hrest]
              · exact Nat.le_of_lt (ihd.2 hrest)
            cases hrs : (r (c :: cs.take (e - 1))).2 with
            | some s =>
              have := hr.2 (c :: cs.take (e - 1)) (by simp [hrs])
              omega
            | none =>
              have hid := hr.1 _ hrs
              simp only [consOpt, hrs] at hch
              have := ihd.2 hch
              have : (cs.drop (e - 1)).length < (gsub m r (cs.drop (e - 1))).1.length := this
              have hlen1 : (r (c :: cs.take (e - 1))).1.length = (c :: cs.take (e - 1)).length := by
                rw [hid]
              omega
        | none =>
          rw [gsub_cons_none hm]
          have ihc := ih cs (by simp only [List.length_cons] at hlen; omega)
          constructor
          · intro hch
            rw [ihc.1 hch]
          · intro hch
            have := ihc.2 hch
            simp only [List.length_cons]
            omega
  intro l
  exact main l.length l le_rfl

/-- The text did not change exactly when no change was recorded. -/
theorem gsub_unchanged_iff {m : List Char → Option Nat}
    {r : List Char → List Char × Option String} (hr : HonestRepl r) (l : List Char) :
    (gsub m r l).1 = l ↔ (gsub m r l).2 = [] := by
  constructor
  · intro h
    by_contra hch
    have hlt := (gsub_honest hr l).2 hch
    rw [h] at hlt
    exact absurd hlt (lt_irrefl _)
  · exact (gsub_honest hr l).1

/-- Replacing the tail of a span by a strictly longer insertion lengthens it. -/
theorem take_append_longer (s ins : List Char) (k : Nat) (h : k < ins.length) :
    s.length < (s.take (s.length - k) ++ ins).length := by
  simp only [List.length_append, List.length_take]
  omega

theorem append2_ne_nil {α : Type} {a b : List α} (h : a ++ b ≠ []) : a ≠ [] ∨ b ≠ [] := by
  rcases a with _ | ⟨x, xs⟩
  · right; simpa using h
  · left; simp

theorem lazyRepl_honest : HonestRepl lazyRepl := by
  constructor <;> intro s <;> simp only [lazyRepl]
  · split
    · intro _; rfl
    · split
      · intro _; rfl
      · split
        · intro h; simp at h
        · split
          · intro h; simp at h
          · intro _; rfl
  · split
    · intro h; simp at h
    · split
      · intro h; simp at h
      · split
        · intro _
          exact take_append_longer s _ 2 (by decide)
        · split
          · intro _
            exact take_append_longer s _ 1 (by decide)
          · intro h; simp at h

theorem decodingRepl_honest : HonestRepl decodingRepl := by
  constructor <;> intro s <;> simp only [decodingRepl]
  · split
    · intro _; rfl
    · split
      · intro h; simp at h
      · split
        · intro h; simp at h
        · intro _; rfl
  · split
    · intro h; simp at h
    · split
      · intro _
        exact take_append_longer s _ 2 (by decide)
      · split
        · intro _
          exact take_append_longer s _ 1 (by decide)
        · intro h; simp at h

theorem fontRepl_honest : HonestRepl fontRepl := by
  constructor <;> intro s <;> simp only [fontRepl]
  · split
    · intro _; rfl
    · intro h; simp at h
  · split
    · intro h; simp at h
    · intro _
      exact take_append_longer s _ 1 (by decide)

theorem deferRepl_honest : HonestRepl deferRepl := by
  constructor <;> intro s <;> simp only [deferRepl]
  · split
    · intro _; rfl
    · intro h; simp at h
  · split
    · intro h; simp at h
    · intro _
      exact take_append_longer s _ 1 (by decide)

theorem heroRepl_honest (desc : String) : HonestRepl (heroRepl desc) := by
  constructor <;> intro s <;> simp only [heroRepl]
  · split
    · intro _; rfl
    · intro h; simp at h
  · split
    · intro h; simp at h
    · intro _
      exact take_append_longer s _ 1 (by decide)

/-- A rule's output text equals its input exactly when it records no change,
and a change strictly lengthens the text (all five rules). -/
theorem rule_honest_lazy (l : List Char) :
    ((add_loading_lazy_to_images l).2 = [] → (add_loading_lazy_to_images l).1 = l) ∧
    ((add_loading_lazy_to_images l).2 ≠ [] → l.length < (add_loading_lazy_to_images l).1.length) :=
  gsub_honest lazyRepl_honest l

theorem rule_honest_decoding (l : List Char) :
    ((add_decoding_async_to_images l).2 = [] → (add_decoding_async_to_images l).1 = l) ∧
    ((add_decoding_async_to_images l).2 ≠ [] → l.length < (add_decoding_async_to_images l).1.length) :=
  gsub_honest decodingRepl_honest l

theorem rule_honest_font (l : List Char) :
    ((add_font_display_swap l).2 = [] → (add_font_display_swap l).1 = l) ∧
    ((add_font_display_swap l).2 ≠ [] → l.length < (add_font_display_swap l).1.length) :=
  gsub_honest fontRepl_honest l

theorem rule_honest_defer (l : List Char) :
    ((add_defer_to_external_scripts l).2 = [] → (add_defer_to_external_scripts l).1 = l) ∧
    ((add_defer_to_external_scripts l).2 ≠ [] →
      l.length < (add_defer_to_external_scripts l).1.length) :=
  gsub_honest deferRepl_honest l

/-- `add_fetchpriority_to_hero_images` written out as its two passes. -/
theorem hero_eq (l : List Char) :
    add_fetchpriority_to_hero_images l =
      ((gsub (heroMatch "<image".data) (heroRepl "Astro Image component")
          (gsub (heroMatch "<img".data) (heroRepl "hero/banner class") l).1).1,
       (gsub (heroMatch "<img".data) (heroRepl "hero/banner class") l).2 ++
       (gsub (heroMatch "<image".data) (heroRepl "Astro Image component")
          (gsub (heroMatch "<img".data) (heroRepl "hero/banner class") l).1).2) := rfl

theorem rule_honest_hero (l : List Char) :
    ((add_fetchpriority_to_hero_images l).2 = [] → (add_fetchpriority_to_hero_images l).1 = l) ∧
    ((add_fetchpriority_to_hero_images l).2 ≠ [] →
      l.length < (add_fetchpriority_to_hero_images l).1.length) := by
  rw [hero_eq]
  have h1 := @gsub_honest (heroMatch "<img".data) (heroRepl "hero/banner class")
    (heroRepl_honest "hero/banner class") l
  have h2 := @gsub_honest (heroMatch "<image".data) (heroRepl "Astro Image component")
    (heroRepl_honest "Astro Image component")
    (gsub (heroMatch "<img".data) (heroRepl "hero/banner class") l).1
  constructor
  · intro hch
    simp only [List.append_eq_nil] at hch
    rw [h2.1 hch.2, h1.1 hch.1]
  · intro hch
    have hge1 : l.length ≤ (gsub (heroMatch "<img".data) (heroRepl "hero/banner class") l).1.length := by
      by_cases hc : (gsub (heroMatch "<img".data) (heroRepl "hero/banner class") l).2 = []
      · rw [h1.1 hc]
      · exact Nat.le_of_lt (h1.2 hc)
    have hge2 : (gsub (heroMatch "<img".data) (heroRepl "hero/banner class") l).1.length ≤
        (gsub (heroMatch "<image".data) (heroRepl "Astro Image component")
          (gsub (heroMatch "<img".data) (heroRepl "hero/banner class") l).1).1.length := by
      by_cases hc : (gsub (heroMatch "<image".data) (heroRepl "Astro Image component")
          (gsub (heroMatch "<img".data) (heroRepl "hero/banner class") l).1).2 = []
      · rw [h2.1 hc]
      · exact Nat.le_of_lt (h2.2 hc)
    rcases append2_ne_nil hch with hc | hc
    · exact Nat.lt_of_lt_of_le (h1.2 hc) hge2
    · exact Nat.lt_of_le_of_lt hge1 (h2.2 hc)

/-! ## The transform pipeline of apply_optimizations.py -/

/-- Running the applicable rewrite rules on one file's text
(`optimize_file`, lines 141–160): `.astro` files get the hero-fetchpriority,
lazy-loading and async-decoding rules in that order, plus the defer rule when
`include_risky` is set; `.css`/`.scss` files get the font-display rule. -/
def optimizeContent (suffix : String) (includeRisky : Bool) (content : List Char) :
    List Char × List String :=
  if suffix == ".astro" then
    let r1 := add_fetchpriority_to_hero_images content
    let r2 := add_loading_lazy_to_images r1.1
    let r3 := add_decoding_async_to_images r2.1
    if includeRisky then
      let r4 := add_defer_to_external_scripts r3.1
      (r4.1, r1.2 ++ r2.2 ++ r3.2 ++ r4.2)
    else
      (r3.1, r1.2 ++ r2.2 ++ r3.2)
  else if suffix == ".css" || suffix == ".scss" then
    add_font_display_swap content
  else (content, [])

/-- The safe `.astro` pipeline written out. -/
theorem optimizeContent_astro_safe (content : List Char) :
    optimizeContent ".astro" false content =
      ((add_decoding_async_to_images
          (add_loading_lazy_to_images (add_fetchpriority_to_hero_images content).1).1).1,
       (add_fetchpriority_to_hero_images content).2 ++
       (add_loading_lazy_to_images (add_fetchpriority_to_hero_images content).1).2 ++
       (add_decoding_async_to_images
          (add_loading_lazy_to_images (add_fetchpriority_to_hero_images content).1).1).2) := rfl

/-- The risky `.astro` pipeline written out. -/
theorem optimizeContent_astro_risky (content : List Char) :
    optimizeContent ".astro" true content =
      ((add_defer_to_external_scripts (add_decoding_async_to_images
          (add_loading_lazy_to_images (add_fetchpriority_to_hero_images content).1).1).1).1,
       (add_fetchpriority_to_hero_images content).2 ++
       (add_loading_lazy_to_images (add_fetchpriority_to_hero_images content).1).2 ++
       (add_decoding_async_to_images
          (add_loading_lazy_to_images (add_fetchpriority_to_hero_images content).1).1).2 ++
       (add_defer_to_external_scripts (add_decoding_async_to_images
          (add_loading_lazy_to_images (add_fetchpriority_to_hero_images content).1).1).1).2) := rfl

theorem optimizeContent_honest (suffix : String) (risky : Bool) (l : List Char) :
    ((optimizeContent suffix risky l).2 = [] → (optimizeContent suffix risky l).1 = l) ∧
    ((optimizeContent suffix risky l).2 ≠ [] →
      l.length < (optimizeContent suffix risky l).1.length) := by
  have h1 := rule_honest_hero l
  have h2 := rule_honest_lazy (add_fetchpriority_to_hero_images l).1
  have h3 := rule_honest_decoding
    (add_loading_lazy_to_images (add_fetchpriority_to_hero_images l).1).1
  have h4 := rule_honest_defer (add_decoding_async_to_images
    (add_loading_lazy_to_images (add_fetchpriority_to_hero_images l).1).1).1
  have hge1 : l.length ≤ (add_fetchpriority_to_hero_images l).1.length := by
    by_cases hc : (add_fetchpriority_to_hero_images l).2 = []
    · rw [h1.1 hc]
    · exact Nat.le_of_lt (h1.2 hc)
  have hge2 : (add_fetchpriority_to_hero_images l).1.length ≤
      (add_loading_lazy_to_images (add_fetchpriority_to_hero_images l).1).1.length := by
    by_cases hc : (add_loading_lazy_to_images (add_fetchpriority_to_hero_images l).1).2 = []
    · rw [h2.1 hc]
    · exact Nat.le_of_lt (h2.2 hc)
  have hge3 : (add_loading_lazy_to_images (add_fetchpriority_to_hero_images l).1).1.length ≤
      (add_decoding_async_to_images
        (add_loading_lazy_to_images (add_fetchpriority_to_hero_images l).1).1).1.length := by
    by_cases hc : (add_decoding_async_to_images
        (add_loading_lazy_to_images (add_fetchpriority_to_hero_images l).1).1).2 = []
    · rw [h3.1 hc]
    · exact Nat.le_of_lt (h3.2 hc)
  have hge4 : (add_decoding_async_to_images
      (add_loading_lazy_to_images (add_fetchpriority_to_hero_images l).1).1).1.length ≤
      (add_defer_to_external_scripts (add_decoding_async_to_images
        (add_loading_lazy_to_images (add_fetchpriority_to_hero_images l).1).1).1).1.length := by
    by_cases hc : (add_defer_to_external_scripts (add_decoding_async_to_images
        (add_loading_lazy_to_images (add_fetchpriority_to_hero_images l).1).1).1).2 = []
    · rw [h4.1 hc]
    · exact Nat.le_of_lt (h4.2 hc)
  by_cases hs : suffix == ".astro"
  · cases risky with
    | false =>
      rw [(by simp [optimizeContent, hs] : optimizeContent suffix false l
        = optimizeContent ".astro" false l), optimizeContent_astro_safe]
      constructor
      · intro hch
        obtain ⟨hc12, hc3⟩ := List.append_eq_nil.mp hch
        obtain ⟨hc1, hc2⟩ := List.append_eq_nil.mp hc12
        rw [h3.1 hc3, h2.1 hc2, h1.1 hc1]
      · intro hch
        rcases append2_ne_nil hch with hc | hc3
        · rcases append2_ne_nil hc with hc1 | hc2
          · exact Nat.lt_of_lt_of_le (Nat.lt_of_lt_of_le (h1.2 hc1) hge2) hge3
          · exact Nat.lt_of_lt_of_le (Nat.lt_of_le_of_lt hge1 (h2.2 hc2)) hge3
        · exact Nat.lt_of_le_of_lt (Nat.le_trans hge1 hge2) (h3.2 hc3)
    | true =>
      rw [(by simp [optimizeContent, hs] : optimizeContent suffix true l
        = optimizeContent ".astro" true l), optimizeContent_astro_risky]
      constructor
      · intro hch
        obtain ⟨hc123, hc4⟩ := List.append_eq_nil.mp hch
        obtain ⟨hc12, hc3⟩ := List.append_eq_nil.mp hc123
        obtain ⟨hc1, hc2⟩ := List.append_eq_nil.mp hc12
        rw [h4.1 hc4, h3.1 hc3, h2.1 hc2, h1.1 hc1]
      · intro hch
        rcases append2_ne_nil hch with hc | hc4
        · rcases append2_ne_nil hc with hc' | hc3
          · rcases append2_ne_nil hc' with hc1 | hc2
            · exact Nat.lt_of_lt_of_le
                (Nat.lt_of_lt_of_le (Nat.lt_of_lt_of_le (h1.2 hc1) hge2) hge3) hge4
            · exact Nat.lt_of_lt_of_le
                (Nat.lt_of_lt_of_le (Nat.lt_of_le_of_lt hge1 (h2.2 hc2)) hge3) hge4
          · exact Nat.lt_of_lt_of_le (Nat.lt_of_le_of_lt (Nat.le_trans hge1 hge2) (h3.2 hc3)) hge4
        · exact Nat.lt_of_le_of_lt (Nat.le_trans (Nat.le_trans hge1 hge2) hge3) (h4.2 hc4)
  · by_cases hcss : suffix == ".css" || suffix == ".scss"
    · rw [(by simp [optimizeContent, hs, hcss] : optimizeContent suffix risky l
        = add_font_display_swap l)]
      exact rule_honest_font l
    · rw [(by simp [optimizeContent, hs, hcss] : optimizeContent suffix risky l = (l, []))]
      exact ⟨fun _ => rfl, fun h => absurd rfl h⟩


/-- The backup file name `backup_file` builds (line 19):
`<original-name>.<timestamp>.bak`.  The name uses only the file's base name
and the strftime second-resolution timestamp shared by the whole run. -/
def backupName (fileName timestamp : String) : String :=
  fileName ++ "." ++ timestamp ++ ".bak"

/-- The per-file result dict of `optimize_file` (lines 129–134). -/
structure TransformResult where
  file : String
  changes : List String
  backup : Option String
  error : Option String
deriving DecidableEq, Repr

/-- `optimize_file` (lines 127–172) on one file: the pure transform plus the
backup/write protocol, following the statement order of the try block.  When
the rewritten text differs, the code first calls `backup_file` (`backupOk`
models whether that snapshot succeeds; raising is caught by the final
`except`, which leaves `changes` and `backup` untouched and records the
error), then sets `result['backup']`, then calls `file_path.write_text`
(`writeOk` models whether that write succeeds), and only after a successful
write sets `result['changes']`.  A write that raises after a successful
backup therefore returns `backup` already set with `changes` still empty and
the error recorded.  The second component is the file's on-disk content
after the call: it is rewritten only when the rewritten text differs from
the original and both the backup snapshot and the write succeeded. -/
def optimize_file (path fileName timestamp suffix : String)
    (includeRisky : Bool) (backupOk writeOk : Bool) (content : List Char) :
    TransformResult × List Char :=
  let rc := optimizeContent suffix includeRisky content
  if rc.1 ≠ content then
    if backupOk then
      if writeOk then
        ({ file := path, changes := rc.2,
           backup := some (backupName fileName timestamp), error := none }, rc.1)
      else
        ({ file := path, changes := [],
           backup := some (backupName fileName timestamp),
           error := some "write failed" }, content)
    else
      ({ file := path, changes := [], backup := none,
         error := some "backup failed" }, content)
  else
    ({ file := path, changes := [], backup := none, error := none }, content)

/-- One source file as the project walk hands it to `optimize_file`, with the
fate of its backup snapshot and of its content write. -/
structure SrcFile where
  path : String
  name : String
  suffix : String
  backupOk : Bool
  writeOk : Bool
  content : List Char

/-- One entry of `files_modified` (lines 196–200). -/
structure ModifiedEntry where
  file : String
  changes : List String
  backup : Option String
deriving DecidableEq, Repr

/-- The accumulated result dict of `optimize_project` (lines 180–188). -/
structure ProjectResult where
  files_processed : List String
  files_modified : List ModifiedEntry
  total_changes : Nat
  errors : List (String × String)
deriving DecidableEq, Repr

/-- The loop body of `optimize_project` (lines 191–226) for one file. -/
def projectStep (timestamp : String) (includeRisky : Bool)
    (acc : ProjectResult) (f : SrcFile) : ProjectResult :=
  let r := (optimize_file f.path f.name timestamp f.suffix includeRisky f.backupOk f.writeOk f.content).1
  { files_processed := acc.files_processed ++ [f.path]
    files_modified := acc.files_modified ++
      (if r.changes ≠ [] then [⟨f.path, r.changes, r.backup⟩] else [])
    total_changes := acc.total_changes + (if r.changes ≠ [] then r.changes.length else 0)
    errors := acc.errors ++ (match r.error with | some e => [(f.path, e)] | none => []) }

/-- `optimize_project`: fold the per-file step over the scanned files in
order (the `.astro` walk followed by the stylesheet walk). -/
def optimize_project (timestamp : String) (includeRisky : Bool)
    (files : List SrcFile) : ProjectResult :=
  files.foldl (projectStep timestamp includeRisky) ⟨[], [], 0, []⟩

/-! ## Occurrence helpers shared by the analysis models -/

/-- Number of positions at which `needle` occurs in the text (used to state
"exactly one attribute was gained"). -/
def countSubOcc (needle : List Char) : List Char → Nat
  | [] => 0
  | c :: cs => (if isPrefOf needle (c :: cs) then 1 else 0) + countSubOcc needle cs

/-- All matches of a matcher with their start positions, scanning like
`re.finditer` (leftmost, non-overlapping). -/
def findAllPosF (m : List Char → Option Nat) : Nat → Nat → List Char → List (Nat × List Char)
  | _, _, [] => []
  | 0, _, _ => []
  | fuel + 1, pos, c :: cs =>
    match m (c :: cs) with
    | some e =>
      let span := c :: cs.take (e - 1)
      (pos, span) :: findAllPosF m fuel (pos + span.length) (cs.drop (e - 1))
    | none => findAllPosF m fuel (pos + 1) cs

def findAllPos (m : List Char → Option Nat) (l : List Char) : List (Nat × List Char) :=
  findAllPosF m l.length 0 l

/-- Number of newline characters in the text. -/
def nlCount (l : List Char) : Nat := (l.filter (fun c => c == '\n')).length

/-! ## The data model of analyze.py -/

/-- The `Finding` dataclass (analyze.py lines 15–24). -/
structure Finding where
  type : String
  severity : String
  risk : String
  file : String
  line : Option Nat
  message : String
  suggestion : String
  auto_fixable : Bool
deriving DecidableEq, Repr

/-- The derived summary of a report (analyze.py lines 386–398). -/
structure Summary where
  total : Nat
  high : Nat
  medium : Nat
  low : Nat
  safe : Nat
  risky : Nat
  auto_fixable : Nat
deriving DecidableEq, Repr

/-- The summary `analyze_project` computes from the finding list: `len` of the
list and of its filtered sublists. -/
def makeSummary (findings : List Finding) : Summary :=
  { total := findings.length
    high := (findings.filter (fun f => f.severity == "high")).length
    medium := (findings.filter (fun f => f.severity == "medium")).length
    low := (findings.filter (fun f => f.severity == "low")).length
    safe := (findings.filter (fun f => f.risk == "safe")).length
    risky := (findings.filter (fun f => f.risk == "risky")).length
    auto_fixable := (findings.filter (fun f => f.auto_fixable)).length }

/-- An analysis report (analyze.py lines 26–30): `analyze_project` collects
the analyzers' findings and then derives the summary from them. -/
structure AnalysisReport where
  project_path : String
  findings : List Finding
  summary : Summary

/-- The report assembly of `analyze_project` (lines 363–400). -/
def buildReport (path : String) (findings : List Finding) : AnalysisReport :=
  { project_path := path, findings := findings, summary := makeSummary findings }

/-- `'width=' in img_tag and 'height=' in img_tag or 'aspect-ratio' in img_tag`
(analyze.py line 54, case-sensitive as in the source). -/
def hasDims (tag : List Char) : Bool :=
  (hasSub "width=".data tag && hasSub "height=".data tag) || hasSub "aspect-ratio".data tag

/-- The `image_cls` findings of one `.astro` file (analyze.py lines 51–67):
one finding per `<img[^>]*>` occurrence that lacks dimensions and does not
mention `Image` — `re.finditer` reports every occurrence, so a file can
contribute several findings of the same type. -/
def imageClsFindings (file : String) (content : List Char) : List Finding :=
  (findAllPos imgMatch content).filterMap (fun pc =>
    if ¬ hasDims pc.2 && ¬ hasSub "Image".data pc.2 then
      some { type := "image_cls", severity := "high", risk := "safe", file := file,
             line := some (nlCount (content.take pc.1) + 1),
             message := "Image missing width/height attributes (causes CLS)",
             suggestion := "Add width and height attributes or use Astro's <Image> component",
             auto_fixable := false }
    else none)

/-- The `image_loading` finding of one `.astro` file (lines 70–80): at most
one per file. -/
def imageLoadingFindings (file : String) (content : List Char) : List Finding :=
  if hasSub "<img".data content && ¬ hasSub "loading=".data content then
    [{ type := "image_loading", severity := "medium", risk := "safe", file := file,
       line := none,
       message := "Images without explicit loading strategy",
       suggestion := "Add loading='lazy' for below-fold images, loading='eager' for above-fold",
       auto_fixable := true }]
  else []

/-- The hero indicators of the `image_priority` check (line 83). -/
def priorityHeroPatterns : List (List Char) :=
  ["hero".data, "banner".data, "header-image".data, "main-image".data, "lcp".data]

/-- The `image_priority` finding of one `.astro` file (lines 83–96): the loop
breaks after the first matching pattern, so at most one per file. -/
def imagePriorityFindings (file : String) (content : List Char) : List Finding :=
  if priorityHeroPatterns.any (fun p => hasSub p (lowStr content)) &&
      ¬ hasSub "fetchpriority".data content then
    [{ type := "image_priority", severity := "high", risk := "safe", file := file,
       line := none,
       message := "Potential hero/LCP image without fetchpriority attribute",
       suggestion := "Add fetchpriority='high' to your main above-fold image",
       auto_fixable := true }]
  else []

/-- The raster suffixes flagged under `public/` (line 101). -/
def isRasterSuffix (suffix : String) : Bool :=
  suffix == ".jpg" || suffix == ".jpeg" || suffix == ".png" || suffix == ".gif"

/-- The `image_format` finding of one file under `public/` (lines 100–111). -/
def imageFormatFindings (publicFiles : List (String × String)) : List Finding :=
  publicFiles.filterMap (fun fs =>
    if isRasterSuffix fs.2 then
      some { type := "image_format", severity := "medium", risk := "safe", file := fs.1,
             line := none,
             message := "Image could be converted to modern format (AVIF/WebP)",
             suggestion := "Convert to AVIF for best compression, WebP for broader support",
             auto_fixable := false }
    else none)

/-- The file inputs `analyze_images` reads: the `.astro` files under `src/`
(in scan order, with their text) and the files under `public/` (with their
lower-cased suffix). -/
structure ImageScan where
  astroFiles : List (String × List Char)
  publicFiles : List (String × String)

/-- `analyze_images` (analyze.py lines 40–113): the per-`.astro`-file checks
in source order, then the `public/` format check. -/
def analyze_images (scan : ImageScan) : List Finding :=
  (scan.astroFiles.flatMap (fun fc =>
    imageClsFindings fc.1 fc.2 ++ imageLoadingFindings fc.1 fc.2 ++
    imagePriorityFindings fc.1 fc.2)) ++
  imageFormatFindings scan.publicFiles

/-! ## The dedup pipeline of detect_js_patterns.py -/

/-- One entry of detect_js_patterns.py's `PATTERNS` table, keeping the fields
the dedup invariant depends on.  The regex family of each entry is abstracted
as a first-match-position function (`none` when no regex of the entry
matches): the dedup property holds for every such family. -/
structure JsPatternDef where
  name : String
  severity : String

/-- A `JsToHtmlCssFinding` restricted to its identity fields. -/
structure JsFinding where
  pattern : String
  severity : String
  file : String
  line : Option Nat
deriving DecidableEq, Repr

/-- `analyze_file` of detect_js_patterns.py (lines 576–611): for each pattern
definition the inner loop appends one finding for the first matching regex and
breaks, so one file contributes at most one finding per pattern name. -/
def js_analyze_file (find : JsPatternDef → List Char → Option Nat)
    (pats : List JsPatternDef) (file : String) (content : List Char) : List JsFinding :=
  pats.filterMap (fun pd =>
    match find pd content with
    | some pos =>
      some { pattern := pd.name, severity := pd.severity, file := file,
             line := some (nlCount (content.take pos) + 1) }
    | none => none)

/-- The `seen`-set dedup of `analyze_project` (lines 638–645): keep the first
finding for each `(pattern, file)` key. -/
def dedupByPatternFile (seen : List (String × String)) : List JsFinding → List JsFinding
  | [] => []
  | f :: fs =>
    if (f.pattern, f.file) ∈ seen then dedupByPatternFile seen fs
    else f :: dedupByPatternFile (seen ++ [(f.pattern, f.file)]) fs

/-- `analyze_project` of detect_js_patterns.py (lines 614–665), reduced to its
finding pipeline: concatenate the per-file findings in scan order, then
deduplicate by `(pattern, file)`. -/
def js_analyze_project (find : JsPatternDef → List Char → Option Nat)
    (pats : List JsPatternDef) (files : List (String × List Char)) : List JsFinding :=
  dedupByPatternFile [] (files.flatMap (fun fc => js_analyze_file find pats fc.1 fc.2))

/-! ## The preload generator of generate_preloads.py -/

/-- The `PreloadDirective` dataclass (generate_preloads.py lines 14–22). -/
structure PreloadDirective where
  href : String
  as_type : String
  type_attr : Option String
  crossorigin : Bool
  scope : String
  source_file : String
  reason : String
deriving DecidableEq, Repr

/-- The `<link>` tag rendered for one directive (lines 150–162). -/
def renderTag (p : PreloadDirective) : String :=
  let attrs := ["rel=\"preload\"", "href=\"" ++ p.href ++ "\"", "as=\"" ++ p.as_type ++ "\""]
      ++ (match p.type_attr with | some t => ["type=\"" ++ t ++ "\""] | none => [])
      ++ (if p.crossorigin then ["crossorigin"] else [])
  "<link " ++ String.intercalate " " attrs ++ ">"

/-- The single pass of `generate_preload_html` (lines 138–168): skip an href
already seen, otherwise render the directive into the layout or the page tag
list according to its scope. -/
def genHtmlAux (seen : List String) : List PreloadDirective → List String × List String
  | [] => ([], [])
  | p :: ps =>
    if p.href ∈ seen then genHtmlAux seen ps
    else
      let rest := genHtmlAux (seen ++ [p.href]) ps
      if p.scope == "layout" then (renderTag p :: rest.1, rest.2)
      else (rest.1, renderTag p :: rest.2)

/-- `generate_preload_html` as the pair of tag lists (the source joins each
with newlines into the `layout` and `page` snippets). -/
def generate_preload_html (ps : List PreloadDirective) : List String × List String :=
  genHtmlAux [] ps

/-- The returned snippet dict (lines 169–172). -/
def generate_preload_html_joined (ps : List PreloadDirective) : String × String :=
  let t := generate_preload_html ps
  (String.intercalate "\n" t.1, String.intercalate "\n" t.2)

/-- First-occurrence-per-href dedup, the specification-side description of
what the `seen` set implements. -/
def dedupByHref (seen : List String) : List PreloadDirective → List PreloadDirective
  | [] => []
  | p :: ps =>
    if p.href ∈ seen then dedupByHref seen ps
    else p :: dedupByHref (seen ++ [p.href]) ps

/-! ## Font extraction of generate_preloads.py

`extract_fonts_from_css` (lines 24–76) finds `@font-face` blocks with the same
block pattern as the font-display rule, extracts font urls with
`url\(["\']?([^"\')\s]+\.(?:woff2?|ttf|otf|eot))["\']?\)`, and normalises
relative urls against the CSS file's directory (modelled lexically, as the
pure content of `Path.resolve`/`relative_to`). -/

/-- A character allowed by the url character class `[^"\')\s]`. -/
def urlAllowed (c : Char) : Bool := ¬ (isQuoteCh c || c == ')' || isWsCh c)

/-- Length of the maximal allowed-character run at the head of the list. -/
def urlRun : List Char → Nat
  | [] => 0
  | c :: cs => if urlAllowed c then urlRun cs + 1 else 0

/-- The font extensions of the url pattern. -/
def fontExts : List (List Char) :=
  ["woff2".data, "woff".data, "ttf".data, "otf".data, "eot".data]

/-- The backtracking of `[^"\')\s]+\.(?:woff2?|ttf|otf|eot)` succeeds on a
maximal allowed run exactly when the run ends in a dot plus a font extension
with a nonempty stem; the captured group is then the whole run. -/
def runIsFontUrl (run : List Char) : Bool :=
  fontExts.any (fun e => endsWithList ('.' :: e) (lowStr run) && e.length + 2 ≤ run.length)

/-- Matcher for the font url pattern (IGNORECASE): the match length together
with group 1. -/
def urlMatchG (l : List Char) : Option (Nat × List Char) :=
  if startsCI "url(".data l then
    let l4 := l.drop 4
    let qskip : Nat := match l4 with
      | c :: _ => if isQuoteCh c then 1 else 0
      | [] => 0
    let rest := l4.drop qskip
    let run := rest.take (urlRun rest)
    if runIsFontUrl run then
      match rest.drop run.length with
      | c :: cs =>
        if c == ')' then some (4 + qskip + run.length + 1, run)
        else if isQuoteCh c then
          match cs with
          | c2 :: _ => if c2 == ')' then some (4 + qskip + run.length + 2, run) else none
          | [] => none
        else none
      | [] => none
    else none
  else none

/-- All groups of a group-returning matcher, scanning like `re.findall`. -/
def findAllGF (m : List Char → Option (Nat × List Char)) :
    Nat → List Char → List (List Char)
  | _, [] => []
  | 0, _ => []
  | fuel + 1, c :: cs =>
    match m (c :: cs) with
    | some eg => eg.2 :: findAllGF m fuel (cs.drop (eg.1 - 1))
    | none => findAllGF m fuel cs

def findAllG (m : List Char → Option (Nat × List Char)) (l : List Char) : List (List Char) :=
  findAllGF m l.length l

/-- The `group(1)` interiors of the `@font-face\s*\{([^}]*)\}` matches. -/
def fontFaceBlocks (css : List Char) : List (List Char) :=
  (findAllPos fontMatch css).map (fun pc =>
    (pc.2.drop (11 + wsRun (pc.2.drop 10))).dropLast)

/-- Split on `/`, as Python `PurePath` splits a relative url into segments. -/
def splitSlashAux (cur : List Char) : List Char → List String
  | [] => [String.mk cur.reverse]
  | c :: cs =>
    if c == '/' then String.mk cur.reverse :: splitSlashAux [] cs
    else splitSlashAux (c :: cur) cs

def splitSlash (l : List Char) : List String := splitSlashAux [] l

/-- Lexical content of `(css_dir / url).resolve()`: fold the url's segments
over the base components, `..` popping one component. -/
def resolveSegs (base : List String) : List String → List String
  | [] => base
  | seg :: rest =>
    if seg == ".." then resolveSegs base.dropLast rest
    else if seg == "." || seg == "" then resolveSegs base rest
    else resolveSegs (base ++ [seg]) rest

/-- `Path.relative_to`: strip the root's components or fail (the
`ValueError` branch). -/
def stripRoot : List String → List String → Option (List String)
  | [], p => some p
  | _ :: _, [] => none
  | r :: rs, p :: ps => if r == p then stripRoot rs ps else none

/-- The url normalisation of `extract_fonts_from_css` (lines 38–54). -/
def normalizeFontUrl (projectPath cssDir : List String) (url : List Char) : String :=
  if isPrefOf "/".data url then String.mk url
  else if isPrefOf "http".data url then String.mk url
  else
    let resolved := resolveSegs cssDir (splitSlash url)
    match stripRoot (projectPath ++ ["public"]) resolved with
    | some rest => "/" ++ String.intercalate "/" rest
    | none =>
      match stripRoot (projectPath ++ ["src"]) resolved with
      | some rest => "/" ++ String.intercalate "/" rest
      | none => String.mk url

/-- The `type` attribute derived from the url (lines 57–64). -/
def fontTypeAttr (url : List Char) : Option String :=
  if hasSub ".woff2".data (lowStr url) then some "font/woff2"
  else if hasSub ".woff".data (lowStr url) then some "font/woff"
  else if hasSub ".ttf".data (lowStr url) then some "font/ttf"
  else none

/-- `extract_fonts_from_css` (lines 24–76).  `cssRel` is the CSS file's path
relative to the project as components; the file's directory is the project
path plus all but the last component. -/
def extract_fonts_from_css (projectPath cssRel : List String) (css : List Char) :
    List PreloadDirective :=
  (fontFaceBlocks css).flatMap (fun face =>
    (findAllG urlMatchG face).map (fun url =>
      { href := normalizeFontUrl projectPath (projectPath ++ cssRel.dropLast) url
        as_type := "font"
        type_attr := fontTypeAttr url
        crossorigin := true
        scope := "layout"
        source_file := String.intercalate "/" cssRel
        reason := "Font declared in CSS - preloading prevents FOIT/FOUT" }))

/-! ## Supporting lemmas for the claim theorems -/

/-- Every change message a `gsub` pass records comes from its callback. -/
theorem gsub_msgs {m : List Char → Option Nat} {r : List Char → List Char × Option String}
    (P : String → Prop) (hr : ∀ s x, (r s).2 = some x → P x) :
    ∀ l, ∀ x ∈ (gsub m r l).2, P x := by
  have main : ∀ n l, l.length ≤ n → ∀ x ∈ (gsub m r l).2, P x := by
    intro n
    induction n with
    | zero =>
      intro l h x hx
      have : l = [] := List.length_eq_zero.mp (Nat.le_zero.mp h)
      subst this
      simp [gsub_nil] at hx
    | succ n ih =>
      intro l hlen x hx
      cases l with
      | nil => simp [gsub_nil] at hx
      | cons c cs =>
        simp only [List.length_cons] at hlen
        cases hm : m (c :: cs) with
        | some e =>
          rw [gsub_cons_some hm] at hx
          cases hrs : (r (c :: cs.take (e - 1))).2 with
          | some s =>
            rw [hrs] at hx
            simp only [consOpt, List.mem_cons] at hx
            rcases hx with rfl | hx
            · exact hr _ _ hrs
            · exact ih (cs.drop (e - 1)) (by simp only [List.length_drop]; omega) x hx
          | none =>
            rw [hrs] at hx
            simp only [consOpt] at hx
            exact ih (cs.drop (e - 1)) (by simp only [List.length_drop]; omega) x hx
        | none =>
          rw [gsub_cons_none hm] at hx
          exact ih cs (by omega) x hx
  intro l
  exact main l.length l le_rfl

theorem lazyRepl_msg (s : List Char) (x : String) (h : (lazyRepl s).2 = some x) : x = lazyMsg := by
  unfold lazyRepl at h
  repeat' split at h
  all_goals simp_all

theorem decodingRepl_msg (s : List Char) (x : String) (h : (decodingRepl s).2 = some x) :
    x = decodingMsg := by
  unfold decodingRepl at h
  repeat' split at h
  all_goals simp_all

theorem fontRepl_msg (s : List Char) (x : String) (h : (fontRepl s).2 = some x) : x = fontMsg := by
  unfold fontRepl at h
  repeat' split at h
  all_goals simp_all

theorem deferRepl_msg (s : List Char) (x : String) (h : (deferRepl s).2 = some x) : x = deferMsg := by
  unfold deferRepl at h
  repeat' split at h
  all_goals simp_all

theorem heroRepl_msg (desc : String) (s : List Char) (x : String)
    (h : (heroRepl desc s).2 = some x) : x = "Added fetchpriority='high' to " ++ desc := by
  by_cases hc : hasSub "fetchpriority".data (lowStr (s.take (s.length - 1))) = true
  · rw [show heroRepl desc s = (s, none) from by simp [heroRepl, hc]] at h
    simp at h
  · rw [show heroRepl desc s = (s.take (s.length - 1) ++ " fetchpriority=\"high\">".data,
      some ("Added fetchpriority='high' to " ++ desc)) from by simp [heroRepl, hc]] at h
    simpa using h.symm

theorem hero_msgs (l : List Char) :
    ∀ x ∈ (add_fetchpriority_to_hero_images l).2,
      x = "Added fetchpriority='high' to hero/banner class" ∨
      x = "Added fetchpriority='high' to Astro Image component" := by
  intro x hx
  rw [hero_eq] at hx
  rcases List.mem_append.mp hx with hx | hx
  · exact Or.inl (gsub_msgs _ (heroRepl_msg "hero/banner class") l x hx)
  · exact Or.inr (gsub_msgs _ (heroRepl_msg "Astro Image component") _ x hx)

/-- The loop of `optimize_project` written as one equation over the scanned
file list. -/
theorem optimize_project_foldl (ts : String) (risky : Bool) :
    ∀ (files : List SrcFile) (acc : ProjectResult),
      files.foldl (projectStep ts risky) acc =
        { files_processed := acc.files_processed ++ files.map (fun f => f.path)
          files_modified := acc.files_modified ++ files.flatMap (fun f =>
            let r := (optimize_file f.path f.name ts f.suffix risky f.backupOk f.writeOk f.content).1
            if r.changes ≠ [] then [⟨f.path, r.changes, r.backup⟩] else [])
          total_changes := acc.total_changes + (files.map (fun f =>
            let r := (optimize_file f.path f.name ts f.suffix risky f.backupOk f.writeOk f.content).1
            if r.changes ≠ [] then r.changes.length else 0)).sum
          errors := acc.errors ++ files.flatMap (fun f =>
            let r := (optimize_file f.path f.name ts f.suffix risky f.backupOk f.writeOk f.content).1
            match r.error with | some e => [(f.path, e)] | none => []) } := by
  intro files
  induction files with
  | nil =>
    intro acc
    cases acc
    simp
  | cons f fs ih =>
    intro acc
    rw [List.foldl_cons, ih]
    simp only [projectStep, List.map_cons, List.flatMap_cons, List.sum_cons,
      ProjectResult.mk.injEq]
    refine ⟨?_, ?_, ?_, ?_⟩
    · simp [List.append_assoc]
    · simp [List.append_assoc]
    · omega
    · simp [List.append_assoc]

theorem optimize_project_eq (ts : String) (risky : Bool) (files : List SrcFile) :
    optimize_project ts risky files =
      { files_processed := files.map (fun f => f.path)
        files_modified := files.flatMap (fun f =>
          let r := (optimize_file f.path f.name ts f.suffix risky f.backupOk f.writeOk f.content).1
          if r.changes ≠ [] then [⟨f.path, r.changes, r.backup⟩] else [])
        total_changes := (files.map (fun f =>
          let r := (optimize_file f.path f.name ts f.suffix risky f.backupOk f.writeOk f.content).1
          if r.changes ≠ [] then r.changes.length else 0)).sum
        errors := files.flatMap (fun f =>
          let r := (optimize_file f.path f.name ts f.suffix risky f.backupOk f.writeOk f.content).1
          match r.error with | some e => [(f.path, e)] | none => []) } := by
  unfold optimize_project
  rw [optimize_project_foldl]
  simp

/-- Emitting a singleton under a condition is filtering then mapping. -/
theorem flatMap_if_singleton {α β : Type} (p : α → Prop) [DecidablePred p] (g : α → β) :
    ∀ l : List α, (l.flatMap (fun a => if p a then [g a] else [])) =
      (l.filter (fun a => decide (p a))).map g := by
  intro l
  induction l with
  | nil => rfl
  | cons a as ih =>
    by_cases h : p a <;> simp [h, ih]

/-- The per-file backup/changes/write relationships of `optimize_file`:
changes are recorded exactly when a backup exists and the on-disk text
changed; a backup is recorded exactly when the rewrite differed and the
snapshot succeeded (regardless of the later write); and when the write
succeeds the backup and changes fields agree. -/
theorem optimize_file_iff (path name ts suffix : String) (risky bOk wOk : Bool)
    (content : List Char) :
    ((optimize_file path name ts suffix risky bOk wOk content).1.changes ≠ [] ↔
      ((optimize_file path name ts suffix risky bOk wOk content).1.backup.isSome ∧
       (optimize_file path name ts suffix risky bOk wOk content).2 ≠ content)) ∧
    ((optimize_file path name ts suffix risky bOk wOk content).1.backup.isSome ↔
      ((optimizeContent suffix risky content).1 ≠ content ∧ bOk = true)) ∧
    (wOk = true →
      ((optimize_file path name ts suffix risky bOk wOk content).1.backup.isSome ↔
        (optimize_file path name ts suffix risky bOk wOk content).1.changes ≠ [])) := by
  have hon := optimizeContent_honest suffix risky content
  by_cases hch : (optimizeContent suffix risky content).1 = content
  · simp [optimize_file, hch]
  · have hne : (optimizeContent suffix risky content).2 ≠ [] := by
      intro h
      exact hch (hon.1 h)
    cases bOk with
    | true =>
      cases wOk with
      | true => simp [optimize_file, hch, hne]
      | false => simp [optimize_file, hch]
    | false => simp [optimize_file, hch]

/-! ## C6 — summary consistency -/

/-- C6: for every analysis report, `summary.total` equals the number of
findings, each severity bucket equals the count of findings with that
severity, each risk bucket the count with that risk, and `auto_fixable`
the count of auto-fixable findings. -/
theorem c6_summary_consistency (path : String) (findings : List Finding) :
    (buildReport path findings).summary.total = (buildReport path findings).findings.length ∧
    (buildReport path findings).summary.high =
      (buildReport path findings).findings.countP (fun f => f.severity == "high") ∧
    (buildReport path findings).summary.medium =
      (buildReport path findings).findings.countP (fun f => f.severity == "medium") ∧
    (buildReport path findings).summary.low =
      (buildReport path findings).findings.countP (fun f => f.severity == "low") ∧
    (buildReport path findings).summary.safe =
      (buildReport path findings).findings.countP (fun f => f.risk == "safe") ∧
    (buildReport path findings).summary.risky =
      (buildReport path findings).findings.countP (fun f => f.risk == "risky") ∧
    (buildReport path findings).summary.auto_fixable =
      (buildReport path findings).findings.countP (fun f => f.auto_fixable) := by
  simp [buildReport, makeSummary, List.countP_eq_length_filter]

/-! ## C3 — dedup by (ruleId, file) -/

/-- A project with one `.astro` page holding two undimensioned `<img>` tags. -/
def c3DemoScan : ImageScan :=
  { astroFiles := [("src/pages/index.astro",
      "<img src=\"/a.png\"><img src=\"/b.png\">".data)]
    publicFiles := [] }

/-- C3 counterexample: `analyze_images` appends one `image_cls` finding per
`<img>` occurrence, so this report carries two findings with the same
`(ruleId, file)` pair — the claimed at-most-one bound is false for
analyze.py. -/
theorem c3_counterexample :
    ¬ (((buildReport "proj" (analyze_images c3DemoScan)).findings.filter
        (fun f => f.type == "image_cls" && f.file == "src/pages/index.astro")).length ≤ 1) := by
  decide

theorem dedupByPatternFile_spec :
    ∀ (seen : List (String × String)) (l : List JsFinding),
      (∀ f ∈ dedupByPatternFile seen l, (f.pattern, f.file) ∉ seen) ∧
      ((dedupByPatternFile seen l).map (fun f => (f.pattern, f.file))).Nodup := by
  intro seen l
  induction l generalizing seen with
  | nil => simp [dedupByPatternFile]
  | cons f fs ih =>
    by_cases h : (f.pattern, f.file) ∈ seen
    · simpa only [dedupByPatternFile, if_pos h] using ih seen
    · simp only [dedupByPatternFile, if_neg h]
      have ihr := ih (seen ++ [(f.pattern, f.file)])
      constructor
      · intro g hg
        rcases List.mem_cons.mp hg with rfl | hg
        · exact h
        · intro hmem
          exact ihr.1 g hg (List.mem_append_left _ hmem)
      · rw [List.map_cons, List.nodup_cons]
        refine ⟨?_, ihr.2⟩
        intro hmem
        rcases List.mem_map.mp hmem with ⟨g, hg, hkey⟩
        exact ihr.1 g hg (by rw [hkey]; exact List.mem_append_right _ (List.mem_singleton_self _))

/-- C3 amended: the detect_js_patterns.py report deduplicates by
`(pattern, file)` — for every matcher family, pattern table and file list, the
deduplicated findings carry pairwise-distinct `(pattern, file)` keys (while
analyze.py's occurrence-based `image_cls` findings can repeat per file, as the
counterexample shows). -/
theorem c3_amended_js_dedup (find : JsPatternDef → List Char → Option Nat)
    (pats : List JsPatternDef) (files : List (String × List Char)) :
    ((js_analyze_project find pats files).map (fun f => (f.pattern, f.file))).Nodup :=
  (dedupByPatternFile_spec [] _).2

/-! ## C9 — preload dedup and partition -/

theorem genHtmlAux_eq :
    ∀ (seen : List String) (ps : List PreloadDirective),
      genHtmlAux seen ps =
        (((dedupByHref seen ps).filter (fun p => p.scope == "layout")).map renderTag,
         ((dedupByHref seen ps).filter (fun p => !(p.scope == "layout"))).map renderTag) := by
  intro seen ps
  induction ps generalizing seen with
  | nil => simp [genHtmlAux, dedupByHref]
  | cons p ps ih =>
    by_cases h : p.href ∈ seen
    · simp only [genHtmlAux, dedupByHref, if_pos h]
      exact ih seen
    · simp only [genHtmlAux, dedupByHref, if_neg h, ih (seen ++ [p.href])]
      by_cases hs : p.scope == "layout" <;> simp [hs]

theorem dedupByHref_spec :
    ∀ (seen : List String) (ps : List PreloadDirective),
      (∀ p ∈ dedupByHref seen ps, p.href ∉ seen) ∧
      ((dedupByHref seen ps).map (fun p => p.href)).Nodup := by
  intro seen ps
  induction ps generalizing seen with
  | nil => simp [dedupByHref]
  | cons p ps ih =>
    by_cases h : p.href ∈ seen
    · simpa only [dedupByHref, if_pos h] using ih seen
    · simp only [dedupByHref, if_neg h]
      have ihr := ih (seen ++ [p.href])
      constructor
      · intro q hq
        rcases List.mem_cons.mp hq with rfl | hq
        · exact h
        · intro hmem
          exact ihr.1 q hq (List.mem_append_left _ hmem)
      · rw [List.map_cons, List.nodup_cons]
        refine ⟨?_, ihr.2⟩
        intro hmem
        rcases List.mem_map.mp hmem with ⟨q, hq, hkey⟩
        exact ihr.1 q hq (by rw [hkey]; exact List.mem_append_right _ (List.mem_singleton_self _))

/-- With pairwise-distinct keys, at most one element carries a given key. -/
theorem count_le_one_of_nodup_keys {α : Type} (key : α → String) :
    ∀ l : List α, (l.map key).Nodup → ∀ h, (l.filter (fun a => key a == h)).length ≤ 1 := by
  intro l
  induction l with
  | nil => intro _ h; simp
  | cons a as ih =>
    intro hnd h
    rw [List.map_cons, List.nodup_cons] at hnd
    by_cases ha : key a == h
    · have hempty : as.filter (fun b => key b == h) = [] := by
        rw [List.filter_eq_nil_iff]
        intro b hb hbk
        apply hnd.1
        have : key b = h := by simpa using hbk
        have hah : key a = h := by simpa using ha
        rw [List.mem_map]
        exact ⟨b, hb, by rw [this, hah]⟩
      simp [List.filter_cons, ha, hempty]
    · simpa [List.filter_cons, ha] using ih hnd.2 h

/-- C9: the generated preload markup deduplicates directives globally by
href: the layout snippet renders exactly the first-per-href directives with
layout scope, the page snippet the rest, the kept hrefs are pairwise
distinct, and at most one kept directive (hence at most one rendered
`<link>` tag) exists per href. -/
theorem c9_preload_dedup (ps : List PreloadDirective) :
    generate_preload_html ps =
      (((dedupByHref [] ps).filter (fun p => p.scope == "layout")).map renderTag,
       ((dedupByHref [] ps).filter (fun p => !(p.scope == "layout"))).map renderTag) ∧
    ((dedupByHref [] ps).map (fun p => p.href)).Nodup ∧
    ∀ h : String, ((dedupByHref [] ps).filter (fun p => p.href == h)).length ≤ 1 := by
  refine ⟨genHtmlAux_eq [] ps, (dedupByHref_spec [] ps).2, ?_⟩
  exact count_le_one_of_nodup_keys (fun p : PreloadDirective => p.href) _ (dedupByHref_spec [] ps).2

/-! ## C10 — constant fields of font preload directives -/

/-- C10: every directive produced by font extraction has `as_type = "font"`,
`crossorigin = true` and `scope = "layout"`, for every CSS input and file
location. -/
theorem c10_font_directive_fields (projectPath cssRel : List String) (css : List Char) :
    ∀ p ∈ extract_fonts_from_css projectPath cssRel css,
      p.as_type = "font" ∧ p.crossorigin = true ∧ p.scope = "layout" := by
  intro p hp
  unfold extract_fonts_from_css at hp
  rcases List.mem_flatMap.mp hp with ⟨face, _, hface⟩
  rcases List.mem_map.mp hface with ⟨url, _, hurl⟩
  subst hurl
  exact ⟨rfl, rfl, rfl⟩

/-- The directive extracted from the witness stylesheet below. -/
def c10Directive : PreloadDirective :=
  { href := "/f.woff2", as_type := "font", type_attr := some "font/woff2",
    crossorigin := true, scope := "layout", source_file := "src/styles/fonts.css",
    reason := "Font declared in CSS - preloading prevents FOIT/FOUT" }

/-- Witness for C10 at a concrete stylesheet. -/
theorem c10_witness :
    ∃ p ∈ extract_fonts_from_css ["proj"] ["src", "styles", "fonts.css"]
      "@font-face\x7bsrc:url(/f.woff2)\x7d".data,
      p.as_type = "font" ∧ p.crossorigin = true ∧ p.scope = "layout" := by
  have hmem : c10Directive ∈ extract_fonts_from_css ["proj"] ["src", "styles", "fonts.css"]
      "@font-face\x7bsrc:url(/f.woff2)\x7d".data := by decide
  exact ⟨_, hmem, c10_font_directive_fields _ _ _ _ hmem⟩

/-! ## C1 — backup present iff changes non-empty iff content changed -/

/-- A file whose rewrite produces a change, whose backup snapshot succeeds,
and whose content write then fails. -/
def c1FailFile : SrcFile :=
  ⟨"src/pages/index.astro", "index.astro", ".astro", true, false,
   "<img src=\"/a.png\">".data⟩

/-- C1 counterexample: on the run where `write_text` raises after a
successful `backup_file` (apply_optimizations.py lines 163–167 set
`result['backup']` before the write and set `result['changes']` only after
it), the returned result has `backup` set while `changes` is still empty,
so `backup` present does not imply `changes` non-empty; the project run then
omits the file from `files_modified` even though a backup record was created
for it. -/
theorem c1_write_failure_counterexample :
    ¬ (((optimize_file c1FailFile.path c1FailFile.name "20240101_120000"
          c1FailFile.suffix false true false c1FailFile.content).1.backup.isSome ↔
        (optimize_file c1FailFile.path c1FailFile.name "20240101_120000"
          c1FailFile.suffix false true false c1FailFile.content).1.changes ≠ [])) ∧
    (optimize_file c1FailFile.path c1FailFile.name "20240101_120000"
        c1FailFile.suffix false true false c1FailFile.content).1.backup =
      some "index.astro.20240101_120000.bak" ∧
    (optimize_file c1FailFile.path c1FailFile.name "20240101_120000"
        c1FailFile.suffix false true false c1FailFile.content).1.changes = [] ∧
    (optimize_project "20240101_120000" false [c1FailFile]).files_modified = [] := by
  decide

/-- C1 (amended): for every transform run on a file, `changes` is non-empty
iff a backup record was created and the on-disk content actually changed,
and the `files_modified` entries of a project run are exactly those files;
`backup` is present iff the rewritten text differed and the backup snapshot
succeeded; and on every run whose content write does not fail, `backup` is
present iff `changes` is non-empty.  The unconditional backup-iff-changes
equivalence fails only on the run where `write_text` raises after a
successful backup, which leaves `backup` set with `changes` empty. -/
theorem c1_amended_backup_invariant (path name ts suffix : String)
    (risky bOk wOk : Bool) (content : List Char) (files : List SrcFile) :
    ((optimize_file path name ts suffix risky bOk wOk content).1.changes ≠ [] ↔
      ((optimize_file path name ts suffix risky bOk wOk content).1.backup.isSome ∧
       (optimize_file path name ts suffix risky bOk wOk content).2 ≠ content)) ∧
    ((optimize_file path name ts suffix risky bOk wOk content).1.backup.isSome ↔
      ((optimizeContent suffix risky content).1 ≠ content ∧ bOk = true)) ∧
    (wOk = true →
      ((optimize_file path name ts suffix risky bOk wOk content).1.backup.isSome ↔
        (optimize_file path name ts suffix risky bOk wOk content).1.changes ≠ [])) ∧
    (optimize_project ts risky files).files_modified =
      (files.filter (fun f =>
        decide ((optimize_file f.path f.name ts f.suffix risky f.backupOk f.writeOk f.content).1.backup.isSome ∧
          (optimize_file f.path f.name ts f.suffix risky f.backupOk f.writeOk f.content).2 ≠ f.content))).map
        (fun f =>
          ⟨f.path, (optimize_file f.path f.name ts f.suffix risky f.backupOk f.writeOk f.content).1.changes,
           (optimize_file f.path f.name ts f.suffix risky f.backupOk f.writeOk f.content).1.backup⟩) := by
  refine ⟨(optimize_file_iff path name ts suffix risky bOk wOk content).1,
    (optimize_file_iff path name ts suffix risky bOk wOk content).2.1,
    (optimize_file_iff path name ts suffix risky bOk wOk content).2.2, ?_⟩
  rw [optimize_project_eq]
  show files.flatMap _ = _
  rw [flatMap_if_singleton
    (fun f : SrcFile =>
      (optimize_file f.path f.name ts f.suffix risky f.backupOk f.writeOk f.content).1.changes ≠ [])
    (fun f : SrcFile =>
      (⟨f.path, (optimize_file f.path f.name ts f.suffix risky f.backupOk f.writeOk f.content).1.changes,
        (optimize_file f.path f.name ts f.suffix risky f.backupOk f.writeOk f.content).1.backup⟩ :
        ModifiedEntry))]
  have hp : ∀ f ∈ files,
      decide ((optimize_file f.path f.name ts f.suffix risky f.backupOk f.writeOk f.content).1.changes ≠ [])
      = decide ((optimize_file f.path f.name ts f.suffix risky f.backupOk f.writeOk f.content).1.backup.isSome ∧
          (optimize_file f.path f.name ts f.suffix risky f.backupOk f.writeOk f.content).2 ≠ f.content) := by
    intro f _
    exact decide_eq_decide.mpr
      ((optimize_file_iff f.path f.name ts f.suffix risky f.backupOk f.writeOk f.content).1)
  rw [List.filter_congr hp]

/-! ## C7 — backup failure aborts the mutation -/

/-- C7: when the backup snapshot fails, the file's new content is never
written (the on-disk text is unchanged), no backup and no changes are
recorded, the error is recorded exactly when a rewrite was pending (a backup
was attempted), and a project run still processes every file in the list. -/
theorem c7_backup_failure_aborts (path name ts suffix : String) (risky wOk : Bool)
    (content : List Char) (files : List SrcFile) :
    ((optimize_file path name ts suffix risky false wOk content).2 = content) ∧
    ((optimize_file path name ts suffix risky false wOk content).1.backup = none) ∧
    ((optimize_file path name ts suffix risky false wOk content).1.changes = []) ∧
    ((optimize_file path name ts suffix risky false wOk content).1.error.isSome ↔
      (optimizeContent suffix risky content).1 ≠ content) ∧
    (optimize_project ts risky files).files_processed = files.map (fun f => f.path) := by
  refine ⟨?_, ?_, ?_, ?_, ?_⟩
  · by_cases hch : (optimizeContent suffix risky content).1 = content <;>
      simp [optimize_file, hch]
  · by_cases hch : (optimizeContent suffix risky content).1 = content <;>
      simp [optimize_file, hch]
  · by_cases hch : (optimizeContent suffix risky content).1 = content <;>
      simp [optimize_file, hch]
  · by_cases hch : (optimizeContent suffix risky content).1 = content <;>
      simp [optimize_file, hch]
  · rw [optimize_project_eq]

/-! ## C4 — risk gating -/

/-- C4: with `include_risky` off no risky-tagged rule produces a change (the
defer rule's message never appears in the change list), and turning the flag
on only appends changes after the safe ones — every change produced with the
flag off is also produced, in the same position, with it on. -/
theorem c4_risk_gating (suffix : String) (content : List Char) :
    deferMsg ∉ (optimizeContent suffix false content).2 ∧
    ∃ extra, (optimizeContent suffix true content).2 =
      (optimizeContent suffix false content).2 ++ extra := by
  by_cases hs : suffix == ".astro"
  · have hfeq : optimizeContent suffix false content = optimizeContent ".astro" false content := by
      simp [optimizeContent, hs]
    have hteq : optimizeContent suffix true content = optimizeContent ".astro" true content := by
      simp [optimizeContent, hs]
    rw [hfeq, hteq, optimizeContent_astro_safe, optimizeContent_astro_risky]
    constructor
    · intro hx
      rcases List.mem_append.mp hx with hx12 | hx3
      · rcases List.mem_append.mp hx12 with hx1 | hx2
        · rcases hero_msgs content deferMsg hx1 with h | h <;> exact absurd h (by decide)
        · exact absurd (gsub_msgs (· = lazyMsg) lazyRepl_msg _ deferMsg hx2) (by decide)
      · exact absurd (gsub_msgs (· = decodingMsg) decodingRepl_msg _ deferMsg hx3) (by decide)
    · exact ⟨_, rfl⟩
  · by_cases hcss : suffix == ".css" || suffix == ".scss"
    · have hfeq : optimizeContent suffix false content = add_font_display_swap content := by
        simp only [optimizeContent, hs, if_false, Bool.false_eq_true]
        rw [if_pos hcss]
      have hteq : optimizeContent suffix true content = add_font_display_swap content := by
        simp only [optimizeContent, hs, if_false, Bool.false_eq_true]
        rw [if_pos hcss]
      rw [hfeq, hteq]
      refine ⟨?_, ⟨[], (List.append_nil _).symm⟩⟩
      intro hx
      exact absurd (gsub_msgs (· = fontMsg) fontRepl_msg _ deferMsg hx) (by decide)
    · have hfeq : optimizeContent suffix false content = (content, []) := by
        simp only [optimizeContent, hs, if_false, Bool.false_eq_true]
        rw [if_neg hcss]
      have hteq : optimizeContent suffix true content = (content, []) := by
        simp only [optimizeContent, hs, if_false, Bool.false_eq_true]
        rw [if_neg hcss]
      rw [hfeq, hteq]
      exact ⟨by simp, ⟨[], rfl⟩⟩

/-! ## C5 — the lazy-loading scenario -/

def c5Input : List Char := "<img src=\"/a.png\">".data

/-- C5: on `<img src="/a.png">` (no loading attribute, no hero indicator)
the default safe transform yields exactly one new `loading="lazy"`
attribute and exactly one corresponding change message, and transforming the
output again produces zero changes. -/
theorem c5_lazy_scenario :
    (optimizeContent ".astro" false c5Input).1 =
      "<img src=\"/a.png\" loading=\"lazy\" decoding=\"async\">".data ∧
    countSubOcc "loading=\"lazy\"".data c5Input = 0 ∧
    countSubOcc "loading=\"lazy\"".data (optimizeContent ".astro" false c5Input).1 = 1 ∧
    ((optimizeContent ".astro" false c5Input).2.filter (fun s => s == lazyMsg)).length = 1 ∧
    optimizeContent ".astro" false (optimizeContent ".astro" false c5Input).1 =
      ((optimizeContent ".astro" false c5Input).1, []) := by decide

/-! ## C2 — the hero rule is not idempotent -/

def c2Input : List Char :=
  "<Imageid=\"lcp><imgid=\"lcp>fetchpriority<imgclass=\"hero\">".data

/-- C2: `add_fetchpriority_to_hero_images` is not idempotent.  On this input
the first application's `<Image` pass inserts `fetchpriority="high"` into the
middle tag; that insertion shortens the quote span the `<img` pass had been
matching, so the second application's `<img` pass no longer swallows the
trailing `<imgclass="hero">` tag inside one already-prioritised match and
instead rewrites it: the second run reports a change and alters the text,
refuting the claimed idempotence of every rewrite rule. -/
theorem c2_hero_not_idempotent :
    (add_fetchpriority_to_hero_images c2Input).2 =
      ["Added fetchpriority='high' to Astro Image component"] ∧
    (add_fetchpriority_to_hero_images
        (add_fetchpriority_to_hero_images c2Input).1).2 =
      ["Added fetchpriority='high' to hero/banner class"] ∧
    (add_fetchpriority_to_hero_images
        (add_fetchpriority_to_hero_images c2Input).1).1 ≠
      (add_fetchpriority_to_hero_images c2Input).1 := by decide

/-! ## C8 — backup names collide within a run -/

/-- Two files of the same run with equal base names in different directories,
both with succeeding backups and writes. -/
def c8FileA : SrcFile :=
  ⟨"src/a/index.astro", "index.astro", ".astro", true, true, "<img src=\"/a.png\">".data⟩

def c8FileB : SrcFile :=
  ⟨"src/b/index.astro", "index.astro", ".astro", true, true, "<img src=\"/b.png\">".data⟩

/-- C8: the backup name is built only from the file's base name and the
second-resolution timestamp, so two distinct files that are both modified in
the same second receive the same backup path — `shutil.copy2` then overwrites
the first snapshot with the second, contradicting the collision-free,
never-overwritten requirement. -/
theorem c8_backup_name_collision :
    c8FileA.path ≠ c8FileB.path ∧
    (optimize_file c8FileA.path c8FileA.name "20240101_120000" c8FileA.suffix false true true
      c8FileA.content).1.backup = some "index.astro.20240101_120000.bak" ∧
    (optimize_file c8FileB.path c8FileB.name "20240101_120000" c8FileB.suffix false true true
      c8FileB.content).1.backup = some "index.astro.20240101_120000.bak" := by decide

end AstroOptimizer
